import Mathlib

/-! Shallow embedding of `src/utils/legacy/m5stats-monitor/m5stats-monitor.c`.

The program establishes an inotify watch on one file and, in an infinite
loop, blocks in poll(2), drains exactly one fixed-size `struct inotify_event`
prefix from the inotify descriptor, and sends SIGUSR1 to a target process id.

The operating-system primitives the program calls — read(2), poll(2),
kill(2), inotify_init(2), inotify_add_watch(2) — are modelled as oracles
supplied by `Chan`, `World` and `OS` structures, following their documented
POSIX contracts: a failing call returns -1 and sets errno to a positive
error code; a successful read(2) returns between 0 and the requested count
bytes, delivering the channel's pending bytes in order.  All loops in the
source are embedded as fuel-indexed functions: `StepRes.more` means the fuel
ran out while the loop was still running, so a run that yields `more` at
every fuel is a run that never terminates. -/

/-- Size in bytes of the fixed `struct inotify_event` prefix the program
reads: `int wd; uint32_t mask; uint32_t cookie; uint32_t len;`, i.e. 16
bytes on the Linux targets of this program. -/
def inotifyEventSize : Nat := 16

/-- Signal number of SIGUSR1 on Linux, the signal `handle_inotify_event`
sends via kill(2). -/
def SIGUSR1 : Nat := 10

/-- errno value EINVAL on Linux, returned by `parse_argv` on a wrong
argument count. -/
def EINVAL : Nat := 22

/-- Planned behaviour of one read(2) call on the inotify descriptor,
indexed by global call count: either the kernel offers up to `n` bytes
(the call returns the minimum of the offer, the requested count and the
bytes still pending, and that many bytes are copied out), or the call
fails, returning -1 with errno `e`. -/
inductive ReadPlan where
  | deliver (n : Nat)
  | fail (e : Nat)
deriving Repr, DecidableEq

/-- The byte-oriented inotify channel: the bytes the kernel will deliver in
order, and how the kernel answers each read(2) call made on it. -/
structure Chan where
  data : List Nat
  plan : Nat → ReadPlan

/-- State of the accumulation loop in `read_inotify_event`: `calls` is the
global count of read(2) calls made so far, `acc` the bytes accumulated into
the output record buffer (`buf[0..len)` in the source, so `acc.length` is
`len`), `rest` the channel bytes not yet consumed, and `reqs` the trace of
read(2) calls issued, each recorded as the pair (len before the call,
requested count). -/
structure RSt where
  calls : Nat
  acc : List Nat
  rest : List Nat
  reqs : List (Nat × Nat)
deriving Repr, DecidableEq

/-- Result of running a fuel-indexed loop: `done` with a result and the
final state, or `more` when the fuel ran out with the loop still going. -/
inductive StepRes (α : Type) (σ : Type) where
  | done (r : α) (s : σ)
  | more (s : σ)
deriving Repr, DecidableEq

/-- `read_inotify_event` from the source:

    ssize_t len = 0;
    char *buf = (void *)out;
    while (len != sizeof(*out)) \x7b
        ssize_t res = read(fd, &buf[len], sizeof(*out)-len);
        if (res < 0)
            return errno;
        len += res;
    \x7d
    return 0;

Embedded fuel-indexed over the channel oracle.  A failing read returns the
planned errno; a successful read delivers `res = min offer (min requested
pending)` bytes (POSIX: a successful read(2) returns at most the requested
count), which are appended to `acc` and consumed from `rest`.  On success
the result carries the assembled record bytes (`*out`). -/
def read_inotify_event (c : Chan) : Nat → RSt → StepRes (Except Nat (List Nat)) RSt
  | 0, s => .more s
  | fuel + 1, s =>
    if s.acc.length = inotifyEventSize then .done (.ok s.acc) s
    else
      match c.plan s.calls with
      | .fail e => .done (.error e)
          { s with
            calls := s.calls + 1
            reqs := s.reqs ++ [(s.acc.length, inotifyEventSize - s.acc.length)] }
      | .deliver n =>
          let req := inotifyEventSize - s.acc.length
          let res := min n (min req s.rest.length)
          read_inotify_event c fuel
            { calls := s.calls + 1
              acc := s.acc ++ s.rest.take res
              rest := s.rest.drop res
              reqs := s.reqs ++ [(s.acc.length, req)] }

/-- Planned behaviour of one poll(2) call (infinite timeout): `ready` means
it returns with the descriptor readable, `block` means no event ever
arrives so the call never returns, `fail e` means it returns -1 with errno
`e`. -/
inductive PollRes where
  | ready
  | block
  | fail (e : Nat)
deriving Repr, DecidableEq

/-- The whole OS environment of the event loop: the inotify channel, the
outcome of each poll(2) call (indexed by poll-call count) and of each
kill(2) call (indexed by kill-call count; `none` is success, `some e` is
failure with errno `e`). -/
structure World where
  chan : Chan
  polls : Nat → PollRes
  kills : Nat → Option Nat

/-- Observable state of the event loop: counts of poll(2), read(2) and
kill(2) calls completed, the channel bytes not yet consumed, and the trace
of signals sent — one entry `(pid, signal number, record read just
before)` per kill(2) call issued, in order. -/
structure LSt where
  polls : Nat
  reads : Nat
  kills : Nat
  rest : List Nat
  sigs : List (Int × Nat × List Nat)
deriving Repr, DecidableEq

/-- `handle_inotify_event` from the source: read one record with
`read_inotify_event`; on read failure propagate the errno; on success call
`kill(pid, SIGUSR1)` (recorded in `sigs`), propagating errno if it fails,
else return 0.  The record's contents are never inspected. -/
def handle_inotify_event (w : World) (pid : Int) (fuel : Nat) (s : LSt) :
    StepRes (Except Nat Unit) LSt :=
  match read_inotify_event w.chan fuel ⟨s.reads, [], s.rest, []⟩ with
  | .more r => .more { s with reads := r.calls, rest := r.rest }
  | .done (.error e) r => .done (.error e) { s with reads := r.calls, rest := r.rest }
  | .done (.ok rec) r =>
    let s1 : LSt := { s with
      reads := r.calls
      rest := r.rest
      kills := s.kills + 1
      sigs := s.sigs ++ [(pid, SIGUSR1, rec)] }
    match w.kills s.kills with
    | some e => .done (.error e) s1
    | none => .done (.ok ()) s1

/-- `monitor_file` from the source: for(;;) poll with infinite timeout
(errno on failure), then `handle_inotify_event` (whose nonzero status is
returned), else loop.  Fuel bounds the number of loop iterations; the
inner record read shares the remaining fuel.  `more` means the loop (or a
poll(2) that blocks forever, or the inner read loop) is still running. -/
def monitor_file (w : World) (pid : Int) : Nat → LSt → StepRes Nat LSt
  | 0, s => .more s
  | fuel + 1, s =>
    match w.polls s.polls with
    | .fail e => .done e { s with polls := s.polls + 1 }
    | .block => .more s
    | .ready =>
      match handle_inotify_event w pid (fuel + 1) { s with polls := s.polls + 1 } with
      | .more s2 => .more s2
      | .done (.error e) s2 => .done e s2
      | .done (.ok _) s2 => monitor_file w pid fuel s2

/-- Outcomes of inotify_init(2) and inotify_add_watch(2): `.ok v` means the
call returned the nonnegative descriptor `v`; `.error e` means it returned
-1 with errno `e` (the POSIX failure convention for both calls). -/
structure OS where
  initRes : Except Nat Nat
  watchRes : Except Nat Nat

/-- C return value of a modelled descriptor-returning system call. -/
def sysRet : Except Nat Nat → Int
  | .ok v => (v : Int)
  | .error _ => -1

/-- `create_file_monitor` from the source: `fd = inotify_init(); if (fd < 0)
return fd; wd = inotify_add_watch(fd, file, IN_MODIFY|IN_CREATE); if (wd <
0) return wd; return fd;`.  The path argument is consumed by the watch
oracle and plays no further role. -/
def create_file_monitor (_file : String) (os : OS) : Int :=
  let fd := sysRet os.initRes
  if fd < 0 then fd
  else
    let wd := sysRet os.watchRes
    if wd < 0 then wd
    else fd

/-- The C locale isspace set skipped by atoi(3): space, tab, newline,
vertical tab, form feed, carriage return. -/
def isSpaceC (ch : Char) : Bool :=
  ch == ' ' || ch == '\t' || ch == '\n' || ch.toNat == 11 || ch.toNat == 12 || ch == '\r'

/-- Decimal accumulation of a leading digit run; stops at the first
non-digit character. -/
def atoiLoop : List Char → Nat → Nat
  | [], acc => acc
  | ch :: cs, acc => if ch.isDigit then atoiLoop cs (10 * acc + (ch.toNat - 48)) else acc

/-- atoi(3), modelled from the C standard contract the source relies on:
skip isspace characters, accept one optional sign, convert the longest
leading run of decimal digits, and yield 0 when no digits are present (no
error is ever reported).  Overflow, undefined in C, is modelled as exact
integer arithmetic. -/
def atoi (s : String) : Int :=
  match s.data.dropWhile isSpaceC with
  | '-' :: cs => -(atoiLoop cs 0 : Int)
  | '+' :: cs => (atoiLoop cs 0 : Int)
  | cs => (atoiLoop cs 0 : Int)

/-- `parse_argv` from the source: with `argc != 3` print usage and return
EINVAL; otherwise the watched path is `argv[1]` and the pid is
`atoi(argv[2])`.  The argument vector includes the program name, as argv
does in C. -/
def parse_argv (argv : List String) : Except Nat (String × Int) :=
  if argv.length ≠ 3 then .error EINVAL
  else .ok (argv.getD 1 "", atoi (argv.getD 2 ""))

/-- Final observable outcome of `main`: the process exited with this status
code, or it is still inside the event loop (which on an error-free run it
never leaves). -/
inductive MainRes where
  | code (status : Nat)
  | loops (s : LSt)
deriving Repr, DecidableEq

/-- Initial event-loop state over a channel holding `data`. -/
def initLSt (data : List Nat) : LSt := ⟨0, 0, 0, data, []⟩

/-- `main` from the source (named `mainFn` here because Lean reserves the
name `main` for IO entry points): parse the arguments (nonzero status is
returned as the exit code), create the file monitor (`return -fd` when the
returned descriptor is negative), then run `monitor_file` forever.  The C
int returned by main is the process exit status. -/
def mainFn (argv : List String) (os : OS) (w : World) (fuel : Nat) : MainRes :=
  match parse_argv argv with
  | .error status => .code status
  | .ok (file, pid) =>
    let fd := create_file_monitor file os
    if fd < 0 then .code (-fd).toNat
    else
      match monitor_file w pid fuel (initLSt w.chan.data) with
      | .more s => .loops s
      | .done e _ => .code e

/-- The reader is stuck: with any amount of fuel, the accumulation loop of
`read_inotify_event` is still running — so the real (unbounded) loop never
returns, neither success nor failure. -/
def readerStuck (c : Chan) (s : RSt) : Prop :=
  ∀ fuel, ∃ s', read_inotify_event c fuel s = .more s'

/-- An OS in which inotify_init(2) and inotify_add_watch(2) both succeed. -/
def okOS : OS := ⟨.ok 3, .ok 1⟩

/-- A channel that has no pending bytes and whose every read(2) call
returns 0 bytes: the byte-oriented channel has hit end-of-stream. -/
def zeroChan : Chan := ⟨[], fun _ => .deliver 0⟩

/-- A channel whose very first read(2) call fails with errno 5 (EIO). -/
def eioChan : Chan := ⟨[], fun _ => .fail 5⟩

/-- Sixteen concrete record bytes. -/
def recA : List Nat := List.range inotifyEventSize

/-- Sixteen other concrete record bytes. -/
def recB : List Nat := List.replicate inotifyEventSize 7

/-- A world whose first poll(2) fails with errno `e`. -/
def failPollWorld (e : Nat) : World :=
  ⟨zeroChan, fun _ => .fail e, fun _ => none⟩

/-- A world where poll(2) reports readiness but the first read(2) on the
inotify descriptor fails with errno `e`. -/
def failReadWorld (e : Nat) : World :=
  ⟨⟨[], fun _ => .fail e⟩, fun _ => .ready, fun _ => none⟩

/-- A world delivering one full record, whose first kill(2) fails with
errno `e`. -/
def failKillWorld (e : Nat) : World :=
  ⟨⟨recA, fun _ => .deliver inotifyEventSize⟩, fun _ => .ready, fun _ => some e⟩

/-- A world delivering exactly one full record and then blocking forever in
poll(2); signal delivery succeeds. -/
def oneEventWorld : World :=
  ⟨⟨recA, fun _ => .deliver inotifyEventSize⟩,
   fun i => if i = 0 then .ready else .block, fun _ => none⟩

/-- The world of a run in which exactly the event records `rs` are
delivered on the channel, in order, and nothing fails: poll(2) reports
readiness once per record and then blocks forever, each read(2) offers a
whole record worth of bytes, and every kill(2) succeeds. -/
def seqWorld (rs : List (List Nat)) : World :=
  ⟨⟨rs.flatten, fun _ => .deliver inotifyEventSize⟩,
   fun i => if i < rs.length then .ready else .block, fun _ => none⟩

/-- A world in which poll(2) always reports readiness, reads always succeed
(delivering whatever is pending, up to a record per call) and kill(2)
always succeeds. -/
def allReadyWorld : World :=
  ⟨⟨recA, fun _ => .deliver inotifyEventSize⟩, fun _ => .ready, fun _ => none⟩

/-- Final state carried by a `StepRes`, whether the loop finished or ran
out of fuel. -/
def StepRes.state {α σ : Type} : StepRes α σ → σ
  | .done _ s => s
  | .more s => s

/-- Well-formedness of the read-request trace: every recorded read(2) call
asked for exactly the missing remainder of the record, from a buffer offset
strictly inside the record. -/
def reqsWF (l : List (Nat × Nat)) : Prop :=
  ∀ p ∈ l, p.2 = inotifyEventSize - p.1 ∧ p.1 < inotifyEventSize

theorem reqsWF_append_one {l : List (Nat × Nat)} {len : Nat} (hl : reqsWF l)
    (hlen : len < inotifyEventSize) :
    reqsWF (l ++ [(len, inotifyEventSize - len)]) := by
  intro p hp
  rcases List.mem_append.mp hp with h | h
  · exact hl p h
  · have hpe : p = (len, inotifyEventSize - len) := by simpa using h
    subst hpe
    exact ⟨rfl, hlen⟩

/-- Core invariant of the accumulation loop: however much fuel it is run
with, the buffer offset never exceeds the record size (so every write of
read(2) lands inside the output record buffer), bytes only move from the
front of the channel into the buffer (conservation), the request trace
stays well-formed, and the call counter only grows. -/
theorem read_inotify_event_inv (c : Chan) :
    ∀ (fuel : Nat) (s : RSt), s.acc.length ≤ inotifyEventSize → reqsWF s.reqs →
      (read_inotify_event c fuel s).state.acc.length ≤ inotifyEventSize ∧
      (read_inotify_event c fuel s).state.acc ++ (read_inotify_event c fuel s).state.rest
        = s.acc ++ s.rest ∧
      reqsWF (read_inotify_event c fuel s).state.reqs ∧
      s.calls ≤ (read_inotify_event c fuel s).state.calls := by
  intro fuel
  induction fuel with
  | zero =>
    intro s hacc hreqs
    exact ⟨hacc, rfl, hreqs, Nat.le_refl _⟩
  | succ fuel ih =>
    intro s hacc hreqs
    by_cases h16 : s.acc.length = inotifyEventSize
    · simp only [read_inotify_event, if_pos h16, StepRes.state]
      exact ⟨hacc, by trivial, hreqs, Nat.le_refl _⟩
    · have hlt : s.acc.length < inotifyEventSize := lt_of_le_of_ne hacc h16
      cases hp : c.plan s.calls with
      | fail e =>
        simp only [read_inotify_event, if_neg h16, hp, StepRes.state]
        exact ⟨hacc, by trivial, reqsWF_append_one hreqs hlt, Nat.le_succ _⟩
      | deliver n =>
        simp only [read_inotify_event, if_neg h16, hp]
        have hacc2 :
            (s.acc ++ s.rest.take (min n (min (inotifyEventSize - s.acc.length)
              s.rest.length))).length ≤ inotifyEventSize := by
          simp only [List.length_append, List.length_take]
          omega
        obtain ⟨ha, hb, hc, hd⟩ := ih
          { calls := s.calls + 1
            acc := s.acc ++ s.rest.take (min n (min (inotifyEventSize - s.acc.length)
              s.rest.length))
            rest := s.rest.drop (min n (min (inotifyEventSize - s.acc.length) s.rest.length))
            reqs := s.reqs ++ [(s.acc.length, inotifyEventSize - s.acc.length)] }
          hacc2 (reqsWF_append_one hreqs hlt)
        refine ⟨ha, ?_, hc, Nat.le_of_succ_le hd⟩
        rw [hb]
        simp [List.append_assoc, List.take_append_drop]

/-- A successful return of the reader carries exactly the fully assembled
record: the result bytes are the final buffer contents and their length is
the full record-prefix size, so no partial record is ever returned. -/
theorem read_inotify_event_ok (c : Chan) :
    ∀ (fuel : Nat) (s : RSt) (rec : List Nat) (s' : RSt),
      read_inotify_event c fuel s = .done (.ok rec) s' →
      rec = s'.acc ∧ s'.acc.length = inotifyEventSize := by
  intro fuel
  induction fuel with
  | zero =>
    intro s rec s' h
    simp [read_inotify_event] at h
  | succ fuel ih =>
    intro s rec s' h
    by_cases h16 : s.acc.length = inotifyEventSize
    · simp only [read_inotify_event, if_pos h16] at h
      cases h
      exact ⟨rfl, h16⟩
    · cases hp : c.plan s.calls with
      | fail e =>
        simp only [read_inotify_event, if_neg h16, hp] at h
        simp at h
      | deliver n =>
        simp only [read_inotify_event, if_neg h16, hp] at h
        exact ih _ rec s' h

/-- A read(2) call that fails with errno `e` makes the reader return that
errno at once: the error is terminal, no retry happens. -/
theorem read_inotify_event_fail_now (c : Chan) (fuel : Nat) (s : RSt) (e : Nat)
    (h16 : s.acc.length ≠ inotifyEventSize) (hp : c.plan s.calls = .fail e) :
    read_inotify_event c (fuel + 1) s =
      .done (.error e)
        ⟨s.calls + 1, s.acc, s.rest,
         s.reqs ++ [(s.acc.length, inotifyEventSize - s.acc.length)]⟩ := by
  simp only [read_inotify_event, if_neg h16, hp]

/-- If no read(2) call in the plan ever fails, the reader never returns an
error, whatever the fuel. -/
theorem read_inotify_event_no_error (c : Chan)
    (hplan : ∀ k e, c.plan k ≠ .fail e) :
    ∀ (fuel : Nat) (s : RSt) (e : Nat) (s' : RSt),
      read_inotify_event c fuel s ≠ .done (.error e) s' := by
  intro fuel
  induction fuel with
  | zero =>
    intro s e s' h
    simp [read_inotify_event] at h
  | succ fuel ih =>
    intro s e s' h
    by_cases h16 : s.acc.length = inotifyEventSize
    · simp only [read_inotify_event, if_pos h16] at h
      simp at h
    · cases hp : c.plan s.calls with
      | fail e2 =>
        exact hplan s.calls e2 hp
      | deliver n =>
        simp only [read_inotify_event, if_neg h16, hp] at h
        exact ih _ e s' h

/-- When every read(2) call returns zero bytes (end-of-stream) while the
record is still incomplete, the loop makes no progress and is still
running with any amount of fuel. -/
theorem read_stuck_zero (c : Chan) (hplan : ∀ k, c.plan k = .deliver 0) :
    ∀ (fuel : Nat) (s : RSt), s.acc.length < inotifyEventSize →
      ∃ s', read_inotify_event c fuel s = .more s' := by
  intro fuel
  induction fuel with
  | zero =>
    intro s hs
    exact ⟨s, rfl⟩
  | succ fuel ih =>
    intro s hs
    have h16 : s.acc.length ≠ inotifyEventSize := Nat.ne_of_lt hs
    simp only [read_inotify_event, if_neg h16, hplan s.calls, Nat.zero_min,
      List.take_zero, List.drop_zero, List.append_nil]
    exact ih _ hs

/-- Progress: on a channel whose pending bytes cover a whole record and
whose read(2) calls each deliver at least one byte, the reader terminates
successfully within a record's worth of calls, returning exactly the next
`inotifyEventSize` bytes of the channel. -/
theorem read_inotify_event_progress (c : Chan)
    (hplan : ∀ k, ∃ n, c.plan k = .deliver n ∧ 1 ≤ n) :
    ∀ (fuel : Nat) (s : RSt),
      s.acc.length ≤ inotifyEventSize →
      inotifyEventSize - s.acc.length ≤ s.rest.length →
      inotifyEventSize + 1 - s.acc.length ≤ fuel →
      ∃ s', read_inotify_event c fuel s
          = .done (.ok (s.acc ++ s.rest.take (inotifyEventSize - s.acc.length))) s' ∧
        s'.acc = s.acc ++ s.rest.take (inotifyEventSize - s.acc.length) ∧
        s'.rest = s.rest.drop (inotifyEventSize - s.acc.length) ∧
        s'.calls ≤ s.calls + (inotifyEventSize - s.acc.length) := by
  intro fuel
  induction fuel with
  | zero =>
    intro s hacc _ hfuel
    omega
  | succ fuel ih =>
    intro s hacc hrest hfuel
    by_cases h16 : s.acc.length = inotifyEventSize
    · refine ⟨s, ?_, ?_, ?_, ?_⟩
      · simp [read_inotify_event, if_pos h16, h16]
      · simp [h16]
      · simp [h16]
      · simp
    · obtain ⟨n, hpn, hn1⟩ := hplan s.calls
      have hlt : s.acc.length < inotifyEventSize := lt_of_le_of_ne hacc h16
      simp only [read_inotify_event, if_neg h16, hpn]
      set res := min n (min (inotifyEventSize - s.acc.length) s.rest.length) with hresdef
      have hres1 : 1 ≤ res := by omega
      have hresle : res ≤ inotifyEventSize - s.acc.length := by omega
      have hresrest : res ≤ s.rest.length := by omega
      have htklen : (s.rest.take res).length = res := by
        simp [List.length_take]
        omega
      have hacc2 : (s.acc ++ s.rest.take res).length = s.acc.length + res := by
        simp [List.length_append, htklen]
      obtain ⟨s', hrun, hsacc, hsrest, hscalls⟩ := ih
        { calls := s.calls + 1
          acc := s.acc ++ s.rest.take res
          rest := s.rest.drop res
          reqs := s.reqs ++ [(s.acc.length, inotifyEventSize - s.acc.length)] }
        (by simp only [hacc2]; omega)
        (by simp only [hacc2, List.length_drop]; omega)
        (by simp only [hacc2]; omega)
      refine ⟨s', ?_, ?_, ?_, ?_⟩
      · rw [hrun]
        have hsplit : (s.acc ++ s.rest.take res) ++
            (s.rest.drop res).take (inotifyEventSize - (s.acc.length + res))
            = s.acc ++ s.rest.take (inotifyEventSize - s.acc.length) := by
          rw [List.append_assoc]
          have htk : s.rest.take res ++ (s.rest.drop res).take
              (inotifyEventSize - (s.acc.length + res))
              = s.rest.take (res + (inotifyEventSize - (s.acc.length + res))) := by
            rw [List.take_add]
          rw [htk]
          have : res + (inotifyEventSize - (s.acc.length + res))
              = inotifyEventSize - s.acc.length := by omega
          rw [this]
        simp only [hacc2, hsplit]
      · rw [hsacc]
        have htk : s.rest.take res ++ (s.rest.drop res).take
            (inotifyEventSize - (s.acc.length + res))
            = s.rest.take (res + (inotifyEventSize - (s.acc.length + res))) := by
          rw [List.take_add]
        simp only [hacc2, List.append_assoc, htk]
        have : res + (inotifyEventSize - (s.acc.length + res))
            = inotifyEventSize - s.acc.length := by omega
        rw [this]
      · rw [hsrest]
        simp only [hacc2, List.drop_drop]
        have : res + (inotifyEventSize - (s.acc.length + res))
            = inotifyEventSize - s.acc.length := by omega
        rw [this]
      · simp only [hacc2] at hscalls
        omega

/-- When the kernel offers a whole record worth of bytes at once and a full
record is pending, the reader finishes in a single read(2) call, consuming
exactly `inotifyEventSize` bytes from the channel. -/
theorem read_inotify_event_one_call (c : Chan) (fuel k : Nat) (rest : List Nat)
    (reqs : List (Nat × Nat))
    (hplan : c.plan k = .deliver inotifyEventSize)
    (hrest : inotifyEventSize ≤ rest.length) :
    read_inotify_event c (fuel + 2) ⟨k, [], rest, reqs⟩ =
      .done (.ok (rest.take inotifyEventSize))
        ⟨k + 1, rest.take inotifyEventSize, rest.drop inotifyEventSize,
         reqs ++ [(0, inotifyEventSize)]⟩ := by
  have h16 : ¬ ((0 : Nat) = inotifyEventSize) := by
    simp [inotifyEventSize]
  have hmin : min inotifyEventSize (min inotifyEventSize rest.length) = inotifyEventSize := by
    omega
  have htk : (rest.take inotifyEventSize).length = inotifyEventSize := by
    simp only [List.length_take]
    omega
  simp only [read_inotify_event, List.length_nil, List.nil_append, Nat.sub_zero,
    if_neg h16, hplan, hmin, if_pos htk]

/-- After a successful record read, `handle_inotify_event` makes exactly one
kill(2) attempt, sending SIGUSR1 to the target pid, whatever the record
contents; its status is exactly the kill(2) outcome. -/
theorem handle_inotify_event_ok (w : World) (pid : Int) (fuel : Nat) (s : LSt)
    (rec : List Nat) (r : RSt)
    (h : read_inotify_event w.chan fuel ⟨s.reads, [], s.rest, []⟩ = .done (.ok rec) r) :
    handle_inotify_event w pid fuel s =
      .done (match w.kills s.kills with | some e => .error e | none => .ok ())
        ⟨s.polls, r.calls, s.kills + 1, r.rest, s.sigs ++ [(pid, SIGUSR1, rec)]⟩ := by
  simp only [handle_inotify_event, h]
  cases w.kills s.kills <;> rfl

/-- A failed record read is propagated by `handle_inotify_event` as is: no
kill(2) attempt is made and the errno is the result. -/
theorem handle_inotify_event_readfail (w : World) (pid : Int) (fuel : Nat) (s : LSt)
    (e : Nat) (r : RSt)
    (h : read_inotify_event w.chan fuel ⟨s.reads, [], s.rest, []⟩ = .done (.error e) r) :
    handle_inotify_event w pid fuel s =
      .done (.error e) ⟨s.polls, r.calls, s.kills, r.rest, s.sigs⟩ := by
  simp only [handle_inotify_event, h]

/-- The signal trace of one `handle_inotify_event` step either stays as it
was (no notification) or grows by exactly one entry whose record is a full
`inotifyEventSize`-byte record: no partial record ever reaches the kill(2)
call. -/
theorem handle_inotify_event_sigs (w : World) (pid : Int) (fuel : Nat) (s : LSt) :
    (handle_inotify_event w pid fuel s).state.sigs = s.sigs ∨
    ∃ rec : List Nat, rec.length = inotifyEventSize ∧
      (handle_inotify_event w pid fuel s).state.sigs = s.sigs ++ [(pid, SIGUSR1, rec)] := by
  unfold handle_inotify_event
  cases h : read_inotify_event w.chan fuel ⟨s.reads, [], s.rest, []⟩ with
  | more r => left; rfl
  | done res r =>
    cases res with
    | error e => left; rfl
    | ok rec =>
      right
      obtain ⟨h1, h2⟩ := read_inotify_event_ok w.chan fuel _ rec r h
      refine ⟨rec, ?_, ?_⟩
      · rw [h1]
        exact h2
      · cases w.kills s.kills <;> rfl

/-- When no read(2) call fails and no kill(2) call fails,
`handle_inotify_event` never returns an error. -/
theorem handle_inotify_event_no_error (w : World) (pid : Int)
    (hplan : ∀ k e, w.chan.plan k ≠ .fail e)
    (hkill : ∀ j, w.kills j = none) (fuel : Nat) (s : LSt) :
    ∀ e s2, handle_inotify_event w pid fuel s ≠ .done (.error e) s2 := by
  intro e s2 h
  unfold handle_inotify_event at h
  cases hr : read_inotify_event w.chan fuel ⟨s.reads, [], s.rest, []⟩ with
  | more r =>
    rw [hr] at h
    simp at h
  | done res r =>
    cases res with
    | error e2 =>
      exact read_inotify_event_no_error w.chan hplan fuel _ e2 _ hr
    | ok rec =>
      rw [hr, hkill s.kills] at h
      simp at h

/-- A failing poll(2) terminates the event loop at once with that errno:
no retry, no further processing. -/
theorem monitor_file_poll_fail (w : World) (pid : Int) (fuel : Nat) (s : LSt) (e : Nat)
    (h : w.polls s.polls = .fail e) :
    monitor_file w pid (fuel + 1) s =
      .done e ⟨s.polls + 1, s.reads, s.kills, s.rest, s.sigs⟩ := by
  simp only [monitor_file, h]

/-- A read(2) call that fails right after a successful poll terminates the
event loop at once with that errno. -/
theorem monitor_file_read_fail (w : World) (pid : Int) (fuel : Nat) (s : LSt) (e : Nat)
    (hpoll : w.polls s.polls = .ready)
    (hplan : w.chan.plan s.reads = .fail e) :
    monitor_file w pid (fuel + 1) s =
      .done e ⟨s.polls + 1, s.reads + 1, s.kills, s.rest, s.sigs⟩ := by
  have h0 : (⟨s.reads, [], s.rest, []⟩ : RSt).acc.length ≠ inotifyEventSize := by
    simp [inotifyEventSize]
  have hread := read_inotify_event_fail_now w.chan fuel ⟨s.reads, [], s.rest, []⟩ e h0 hplan
  have hh := handle_inotify_event_readfail w pid (fuel + 1)
    { s with polls := s.polls + 1 } e _ hread
  simp only [monitor_file, hpoll, hh]

/-- On a run where every poll(2) reports readiness, no read(2) call fails
and every kill(2) succeeds, the event loop never terminates: with any
amount of fuel it is still running. -/
theorem monitor_file_no_exit (w : World) (pid : Int)
    (hpoll : ∀ i, w.polls i = .ready)
    (hplan : ∀ k e, w.chan.plan k ≠ .fail e)
    (hkill : ∀ j, w.kills j = none) :
    ∀ (fuel : Nat) (s : LSt), ∃ s', monitor_file w pid fuel s = .more s' := by
  intro fuel
  induction fuel with
  | zero =>
    intro s
    exact ⟨s, rfl⟩
  | succ fuel ih =>
    intro s
    simp only [monitor_file, hpoll s.polls]
    cases hh : handle_inotify_event w pid (fuel + 1) { s with polls := s.polls + 1 } with
    | more s2 => exact ⟨s2, rfl⟩
    | done res s2 =>
      cases res with
      | error e =>
        exact absurd hh (handle_inotify_event_no_error w pid hplan hkill (fuel + 1) _ e s2)
      | ok u =>
        exact ih s2

/-- If the channel delivers exactly the record sequence `rs` (each a full
record, offered a record per read(2) call), poll(2) wakes the loop once per
record then blocks forever, and every kill(2) succeeds, then the event loop
drains all of `rs` — making exactly one poll, one read(2) and one
notification per record, in delivery order — and is then parked in poll(2)
with the whole channel consumed and the signal trace listing one SIGUSR1
per record, in order. -/
theorem monitor_file_seq (pid : Int) :
    ∀ (rs : List (List Nat)) (fuel : Nat) (w : World) (s : LSt),
      (∀ r ∈ rs, r.length = inotifyEventSize) →
      (∀ k, w.chan.plan k = .deliver inotifyEventSize) →
      (∀ j, w.kills j = none) →
      (∀ i, i < rs.length → w.polls (s.polls + i) = .ready) →
      w.polls (s.polls + rs.length) = .block →
      s.rest = rs.flatten →
      monitor_file w pid (rs.length + (fuel + 1)) s =
        .more ⟨s.polls + rs.length, s.reads + rs.length, s.kills + rs.length, [],
               s.sigs ++ rs.map (fun r => (pid, SIGUSR1, r))⟩ := by
  intro rs
  induction rs with
  | nil =>
    intro fuel w s hlen hplan hkill hready hblock hrest
    have hb : w.polls s.polls = .block := by simpa using hblock
    have hr : s.rest = [] := by simpa using hrest
    simp only [List.length_nil, Nat.zero_add, Nat.add_zero, List.map_nil, List.append_nil,
      monitor_file, hb]
    rw [← hr]
  | cons r rs ih =>
    intro fuel w s hlen hplan hkill hready hblock hrest
    have hp0 : w.polls s.polls = .ready := by
      simpa using hready 0 (by simp)
    have hrlen : r.length = inotifyEventSize := hlen r (by simp)
    have hrest16 : inotifyEventSize ≤ s.rest.length := by
      rw [hrest]
      simp only [List.flatten_cons, List.length_append]
      omega
    have hread := read_inotify_event_one_call w.chan (rs.length + fuel)
      s.reads s.rest [] (hplan s.reads) hrest16
    have htkr : s.rest.take inotifyEventSize = r := by
      rw [hrest, List.flatten_cons, ← hrlen, List.take_left]
    have hdrr : s.rest.drop inotifyEventSize = rs.flatten := by
      rw [hrest, List.flatten_cons, ← hrlen, List.drop_left]
    rw [htkr, hdrr] at hread
    have hh := handle_inotify_event_ok w pid (rs.length + fuel + 1 + 1)
      { s with polls := s.polls + 1 } r _ hread
    simp only [hkill] at hh
    have hstep : monitor_file w pid (rs.length + fuel + 1 + 1) s
        = monitor_file w pid (rs.length + fuel + 1)
          ⟨s.polls + 1, s.reads + 1, s.kills + 1, rs.flatten,
           s.sigs ++ [(pid, SIGUSR1, r)]⟩ := by
      simp only [monitor_file, hp0, hh]
    have harith : (r :: rs).length + (fuel + 1) = rs.length + fuel + 1 + 1 := by
      simp only [List.length_cons]
      omega
    rw [harith, hstep]
    have ihr := ih fuel w
      ⟨s.polls + 1, s.reads + 1, s.kills + 1, rs.flatten, s.sigs ++ [(pid, SIGUSR1, r)]⟩
      (fun r2 hr2 => hlen r2 (by simp [hr2]))
      hplan hkill
      (fun i hi => by
        have := hready (i + 1) (by simpa using Nat.succ_lt_succ hi)
        simpa [Nat.add_assoc, Nat.add_comm 1 i] using this)
      (by
        have := hblock
        simp only [List.length_cons] at this
        simpa [Nat.add_assoc, Nat.add_comm 1 rs.length] using this)
      rfl
    have harith2 : rs.length + fuel + 1 = rs.length + (fuel + 1) := by omega
    rw [harith2, ihr]
    simp only [StepRes.more.injEq, LSt.mk.injEq, List.length_cons, List.map_cons]
    refine ⟨by omega, by omega, by omega, by trivial, by simp⟩

/-- `monitor_file_seq` specialised to `seqWorld rs` started fresh: the loop
drains exactly the records `rs`, one poll, one read(2) and one SIGUSR1
notification per record, in order, and is then parked in poll(2). -/
theorem monitor_file_seqWorld (rs : List (List Nat)) (pid : Int) (fuel : Nat)
    (hlen : ∀ r ∈ rs, r.length = inotifyEventSize) :
    monitor_file (seqWorld rs) pid (rs.length + (fuel + 1)) (initLSt (seqWorld rs).chan.data)
      = .more ⟨rs.length, rs.length, rs.length, [],
               rs.map (fun r => (pid, SIGUSR1, r))⟩ := by
  have h := monitor_file_seq pid rs fuel (seqWorld rs) (initLSt (seqWorld rs).chan.data)
    hlen (fun _ => rfl) (fun _ => rfl)
    (fun i hi => by
      show (if 0 + i < rs.length then PollRes.ready else PollRes.block) = PollRes.ready
      rw [if_pos (by omega)])
    (by
      show (if 0 + rs.length < rs.length then PollRes.ready else PollRes.block) = PollRes.block
      rw [if_neg (by omega)])
    rfl
  simpa [initLSt] using h

/-- With exactly three argument strings (program name, path, pid text),
argument parsing always succeeds, whatever the pid text contains: the
path is the second argument, the pid is whatever atoi makes of the third. -/
theorem parse_argv_three (a b c : String) :
    parse_argv [a, b, c] = .ok (b, atoi c) := rfl

/-- The digit-accumulation loop yields its accumulator unchanged when the
list starts with a non-digit or is empty. -/
theorem atoiLoop_eq_zero (cs : List Char) (h : ∀ ch ∈ cs, ch.isDigit = false) :
    atoiLoop cs 0 = 0 := by
  cases cs with
  | nil => rfl
  | cons ch cs2 => simp [atoiLoop, h ch (by simp)]

/-- atoi of a string containing no digit at all yields the numeric fallback
0 — never a parse error. -/
theorem atoi_no_digits (s : String) (h : ∀ ch ∈ s.data, ch.isDigit = false) :
    atoi s = 0 := by
  have hsub : ∀ ch ∈ s.data.dropWhile isSpaceC, ch.isDigit = false :=
    fun ch hch => h ch ((List.dropWhile_sublist _).subset hch)
  unfold atoi
  split
  · rename_i cs heq
    rw [atoiLoop_eq_zero cs
      (fun ch hch => hsub ch (by rw [heq]; exact List.mem_cons_of_mem _ hch))]
    simp
  · rename_i cs heq
    rw [atoiLoop_eq_zero cs
      (fun ch hch => hsub ch (by rw [heq]; exact List.mem_cons_of_mem _ hch))]
    simp
  · rename_i cs h1 h2
    rw [atoiLoop_eq_zero _ hsub]
    simp

/-- If inotify_init(2) fails, `main` exits with status 1 — the negation of
the -1 the call returned — whatever the registration oracle `wr`, the event
loop world `w` and the fuel are: neither registration nor any wait is
consulted. -/
theorem mainFn_init_fail (a b c : String) (e : Nat) (wr : Except Nat Nat)
    (w : World) (fuel : Nat) :
    mainFn [a, b, c] ⟨.error e, wr⟩ w fuel = .code 1 := rfl

/-- If inotify_init(2) succeeds but inotify_add_watch(2) fails, `main`
exits with status 1 — the negation of the -1 the call returned — whatever
the event loop world and fuel are: no wait ever happens. -/
theorem mainFn_watch_fail (a b c : String) (fd e : Nat) (w : World) (fuel : Nat) :
    mainFn [a, b, c] ⟨.ok fd, .error e⟩ w fuel = .code 1 := by
  simp only [mainFn, parse_argv_three, create_file_monitor, sysRet]
  rw [if_neg (show ¬ ((fd : Int) < 0) by omega)]
  rw [if_pos (show (-1 : Int) < 0 by decide)]
  rw [if_pos (show (-1 : Int) < 0 by decide)]
  rfl

/-- With three arguments and a successful watch creation, `main` is the
event loop run with the parsed pid over the world's channel. -/
theorem mainFn_monitor (a b c : String) (os : OS) (w : World) (fuel : Nat)
    (hfd : ¬ (create_file_monitor b os < 0)) :
    mainFn [a, b, c] os w fuel =
      match monitor_file w (atoi c) fuel (initLSt w.chan.data) with
      | .more s => .loops s
      | .done e _ => .code e := by
  simp only [mainFn, parse_argv_three]
  rw [if_neg hfd]

/-- The event loop of `failKillWorld e` reads the one pending record, makes
one kill(2) attempt which fails with errno `e`, and exits with status `e`. -/
theorem monitor_file_kill_fail (c : String) (e fuel : Nat) :
    monitor_file (failKillWorld e) (atoi c) (fuel + 2) (initLSt (failKillWorld e).chan.data)
      = .done e ⟨1, 1, 1, [], [(atoi c, SIGUSR1, recA)]⟩ := by
  have hread : read_inotify_event (failKillWorld e).chan (fuel + 2) ⟨0, [], recA, []⟩
      = .done (.ok recA) ⟨1, recA, [], [(0, inotifyEventSize)]⟩ := by
    have h := read_inotify_event_one_call (failKillWorld e).chan fuel 0 recA []
      rfl (by decide)
    rw [(show recA.take inotifyEventSize = recA by rfl),
      (show recA.drop inotifyEventSize = [] by rfl)] at h
    simpa using h
  have hh : handle_inotify_event (failKillWorld e) (atoi c) (fuel + 1 + 1) ⟨1, 0, 0, recA, []⟩
      = .done (.error e) ⟨1, 1, 1, [], [(atoi c, SIGUSR1, recA)]⟩ := by
    have h2 := handle_inotify_event_ok (failKillWorld e) (atoi c) (fuel + 1 + 1)
      ⟨1, 0, 0, recA, []⟩ recA ⟨1, recA, [], [(0, inotifyEventSize)]⟩ hread
    simpa using h2
  show monitor_file (failKillWorld e) (atoi c) (fuel + 2) ⟨0, 0, 0, recA, []⟩ = _
  simp only [monitor_file, (show (failKillWorld e).polls 0 = .ready from rfl),
    Nat.zero_add, hh]

/-- When both inotify calls succeed, `create_file_monitor` returns the
descriptor of `okOS`, which is not negative. -/
theorem create_file_monitor_okOS (b : String) : ¬ (create_file_monitor b okOS < 0) := by
  have hc : create_file_monitor b okOS = 3 := rfl
  rw [hc]
  decide

/-- C2, counterexample: the claim says a failing channel creation makes the
process exit with the operation's errno.  With inotify_init(2) failing with
errno 24 (EMFILE), the process instead exits with status 1, because
inotify_init returns -1 (not a negated errno) and `main` returns `-fd`. -/
theorem C2_counterexample_init_errno :
    mainFn ["m5stat-monitor", "/tmp/stats.txt", "4242"] ⟨.error 24, .ok 1⟩ oneEventWorld 5
        = .code 1 ∧ (1 : Nat) ≠ 24 :=
  ⟨rfl, by decide⟩

/-- C2 as amended: a failing blocking wait, record read or signal delivery
makes the process exit with that operation's errno; but a failing channel
creation or registration makes it exit with status 1 (the negated -1
return value of the failing inotify call), not with the errno. -/
theorem C2_amended_exit_codes (a b c : String) (e fd : Nat) (wr : Except Nat Nat)
    (w : World) (fuel : Nat) :
    mainFn [a, b, c] ⟨.error e, wr⟩ w fuel = .code 1 ∧
    mainFn [a, b, c] ⟨.ok fd, .error e⟩ w fuel = .code 1 ∧
    mainFn [a, b, c] okOS (failPollWorld e) (fuel + 1) = .code e ∧
    mainFn [a, b, c] okOS (failReadWorld e) (fuel + 1) = .code e ∧
    mainFn [a, b, c] okOS (failKillWorld e) (fuel + 2) = .code e := by
  refine ⟨mainFn_init_fail a b c e wr w fuel, mainFn_watch_fail a b c fd e w fuel, ?_, ?_, ?_⟩
  · rw [mainFn_monitor a b c okOS (failPollWorld e) (fuel + 1) (create_file_monitor_okOS b),
      monitor_file_poll_fail (failPollWorld e) (atoi c) fuel
        (initLSt (failPollWorld e).chan.data) e rfl]
  · rw [mainFn_monitor a b c okOS (failReadWorld e) (fuel + 1) (create_file_monitor_okOS b),
      monitor_file_read_fail (failReadWorld e) (atoi c) fuel
        (initLSt (failReadWorld e).chan.data) e rfl rfl]
  · rw [mainFn_monitor a b c okOS (failKillWorld e) (fuel + 2) (create_file_monitor_okOS b),
      monitor_file_kill_fail c e fuel]

/-- C6: if the notification channel cannot be created, the process exits at
once with no registration and no wait — the result is the same for every
registration oracle `wr`, every world `w` and every fuel, so neither is
ever consulted; if creation succeeds but registration fails, the process
exits at once with no wait — the result is the same for every world `w2`
and fuel. -/
theorem C6_early_termination (a b c : String) (e fd : Nat) (wr : Except Nat Nat)
    (w w2 : World) (fuel fuel2 : Nat) :
    mainFn [a, b, c] ⟨.error e, wr⟩ w fuel = .code 1 ∧
    mainFn [a, b, c] ⟨.ok fd, .error e⟩ w2 fuel2 = .code 1 :=
  ⟨mainFn_init_fail a b c e wr w fuel, mainFn_watch_fail a b c fd e w2 fuel2⟩

/-- C1: on a channel that has at least a full record's bytes pending, with
every read(2) call returning at least one byte (short reads allowed), the
reader performs as many read calls as necessary (at most one per missing
byte), accumulating at an advancing offset, and returns success exactly
with the full fixed-size prefix — the first `inotifyEventSize` pending
bytes.  Moreover the Notifier step is never invoked with a partial record:
one `handle_inotify_event` step either adds no signal-trace entry or adds
exactly one whose record has full length. -/
theorem C1_reader_assembles_full_record (c : Chan) (k0 : Nat) (rest : List Nat)
    (w : World) (pid : Int) (fuel : Nat) (s : LSt)
    (hplan : ∀ k, ∃ n, c.plan k = .deliver n ∧ 1 ≤ n)
    (hrest : inotifyEventSize ≤ rest.length) :
    (∃ s', read_inotify_event c (inotifyEventSize + 1) ⟨k0, [], rest, []⟩
        = .done (.ok (rest.take inotifyEventSize)) s' ∧
        s'.calls ≤ k0 + inotifyEventSize) ∧
    ((handle_inotify_event w pid fuel s).state.sigs = s.sigs ∨
      ∃ rec : List Nat, rec.length = inotifyEventSize ∧
        (handle_inotify_event w pid fuel s).state.sigs = s.sigs ++ [(pid, SIGUSR1, rec)]) := by
  constructor
  · obtain ⟨s', hrun, hsacc, hsrest, hscalls⟩ := read_inotify_event_progress c hplan
      (inotifyEventSize + 1) ⟨k0, [], rest, []⟩ (by simp) (by simpa using hrest) (by simp)
    exact ⟨s', by simpa using hrun, by simpa using hscalls⟩
  · exact handle_inotify_event_sigs w pid fuel s

theorem C1_reader_assembles_full_record_witness :
    (∃ s', read_inotify_event ⟨recA ++ recB, fun _ => .deliver 3⟩ (inotifyEventSize + 1)
        ⟨0, [], recA ++ recB, []⟩
        = .done (.ok ((recA ++ recB).take inotifyEventSize)) s' ∧
        s'.calls ≤ 0 + inotifyEventSize) ∧
    ((handle_inotify_event oneEventWorld 4242 2 (initLSt recA)).state.sigs
        = (initLSt recA).sigs ∨
      ∃ rec : List Nat, rec.length = inotifyEventSize ∧
        (handle_inotify_event oneEventWorld 4242 2 (initLSt recA)).state.sigs
          = (initLSt recA).sigs ++ [(4242, SIGUSR1, rec)]) :=
  C1_reader_assembles_full_record ⟨recA ++ recB, fun _ => .deliver 3⟩ 0 (recA ++ recB)
    oneEventWorld 4242 2 (initLSt recA)
    (fun _ => ⟨3, rfl, by decide⟩) (by decide)

/-- C3, counterexample to the claim as stated: a channel that hits
end-of-stream mid-record (here with 0 of the 16 record bytes accumulated,
every read(2) call returning zero bytes) does not make the reader
terminate with a ReadError — the reader never returns at all: with any
amount of fuel the accumulation loop is still running, because a zero
return passes the `res < 0` test and leaves `len` unchanged. -/
theorem C3_counterexample_eof_spins : readerStuck zeroChan ⟨0, [], [], []⟩ :=
  fun fuel => read_stuck_zero zeroChan (fun _ => rfl) fuel ⟨0, [], [], []⟩ (by decide)

/-- C3 as amended: when every read(2) call reports end-of-stream (zero
bytes) with the record still incomplete, the reader does not terminate —
it keeps issuing read calls forever.  The reader terminates with a
ReadError only when a read call reports failure (returns -1 with an
errno), in which case it returns that errno at once. -/
theorem C3_amended_eof_behaviour (c : Chan) (s : RSt) (c2 : Chan) (s2 : RSt) (fuel e : Nat)
    (hzero : ∀ k, c.plan k = .deliver 0)
    (hacc : s.acc.length < inotifyEventSize)
    (hacc2 : s2.acc.length ≠ inotifyEventSize)
    (hfail : c2.plan s2.calls = .fail e) :
    readerStuck c s ∧
    read_inotify_event c2 (fuel + 1) s2 = .done (.error e)
      ⟨s2.calls + 1, s2.acc, s2.rest,
       s2.reqs ++ [(s2.acc.length, inotifyEventSize - s2.acc.length)]⟩ :=
  ⟨fun f => read_stuck_zero c hzero f s hacc,
   read_inotify_event_fail_now c2 fuel s2 e hacc2 hfail⟩

theorem C3_amended_eof_behaviour_witness :
    readerStuck zeroChan ⟨5, [1, 2, 3], [], []⟩ ∧
    read_inotify_event eioChan (0 + 1) ⟨0, [], [], []⟩ = .done (.error 5)
      ⟨1, [], [], [(0, inotifyEventSize)]⟩ :=
  C3_amended_eof_behaviour zeroChan ⟨5, [1, 2, 3], [], []⟩ eioChan ⟨0, [], [], []⟩ 0 5
    (fun _ => rfl) (by decide) (by decide) rfl

/-- C4: if the channel delivers exactly the `N` records `rs` (no
variable-length trailing data) and nothing fails, the event loop makes
exactly `N` notification attempts, one per drained record, in delivery
order (the signal trace is `rs` mapped to SIGUSR1 entries), with each
record's read completed before the next blocking wait begins: the final
state counts exactly `N` polls, `N` reads and `N` kills, and the loop is
then parked in the next blocking wait. -/
theorem C4_n_events_n_notifications (rs : List (List Nat)) (pid : Int) (fuel : Nat)
    (hlen : ∀ r ∈ rs, r.length = inotifyEventSize) :
    monitor_file (seqWorld rs) pid (rs.length + (fuel + 1)) (initLSt (seqWorld rs).chan.data)
      = .more ⟨rs.length, rs.length, rs.length, [],
               rs.map (fun r => (pid, SIGUSR1, r))⟩ :=
  monitor_file_seqWorld rs pid fuel hlen

theorem C4_n_events_n_notifications_witness :
    monitor_file (seqWorld [recA, recB]) 4242 3 (initLSt (seqWorld [recA, recB]).chan.data)
      = .more ⟨2, 2, 2, [], [(4242, SIGUSR1, recA), (4242, SIGUSR1, recB)]⟩ :=
  C4_n_events_n_notifications [recA, recB] 4242 0 (by decide)

/-- C5: whenever the record read succeeds — whatever the record's bytes,
which are never inspected — `handle_inotify_event` makes exactly one
kill(2) attempt, sending SIGUSR1 to the target pid, appending exactly that
one entry to the signal trace; its status is exactly the kill(2) outcome,
so no successfully read record fails to produce a notification attempt. -/
theorem C5_one_signal_per_record (w : World) (pid : Int) (fuel : Nat) (s : LSt)
    (rec : List Nat) (r : RSt)
    (h : read_inotify_event w.chan fuel ⟨s.reads, [], s.rest, []⟩ = .done (.ok rec) r) :
    handle_inotify_event w pid fuel s =
      .done (match w.kills s.kills with | some e => .error e | none => .ok ())
        ⟨s.polls, r.calls, s.kills + 1, r.rest, s.sigs ++ [(pid, SIGUSR1, rec)]⟩ :=
  handle_inotify_event_ok w pid fuel s rec r h

theorem C5_one_signal_per_record_witness :
    handle_inotify_event oneEventWorld 4242 2 (initLSt recA) =
      .done (.ok ()) ⟨0, 1, 1, [], [(4242, SIGUSR1, recA)]⟩ :=
  C5_one_signal_per_record oneEventWorld 4242 2 (initLSt recA) recA
    ⟨1, recA, [], [(0, inotifyEventSize)]⟩
    (by
      have h := read_inotify_event_one_call oneEventWorld.chan 0 0 recA [] rfl (by decide)
      rw [(show recA.take inotifyEventSize = recA by rfl),
        (show recA.drop inotifyEventSize = [] by rfl)] at h
      simpa using h)

/-- C7: on an execution where every blocking wait reports readiness, no
read(2) call fails and every kill(2) succeeds, the event loop never
returns or exits: with any fuel it is still running, and `main` on such a
world never produces an exit code. -/
theorem C7_loop_never_exits_on_success (w : World) (pid : Int) (a b c : String)
    (fuel fuel2 : Nat) (s : LSt)
    (hpoll : ∀ i, w.polls i = .ready)
    (hplan : ∀ k e, w.chan.plan k ≠ .fail e)
    (hkill : ∀ j, w.kills j = none) :
    (∃ s', monitor_file w pid fuel s = .more s') ∧
    (∃ s', mainFn [a, b, c] okOS w fuel2 = .loops s') := by
  refine ⟨monitor_file_no_exit w pid hpoll hplan hkill fuel s, ?_⟩
  obtain ⟨s', hs'⟩ := monitor_file_no_exit w (atoi c) hpoll hplan hkill fuel2
    (initLSt w.chan.data)
  refine ⟨s', ?_⟩
  rw [mainFn_monitor a b c okOS w fuel2 (create_file_monitor_okOS b), hs']

theorem C7_loop_never_exits_on_success_witness :
    (∃ s', monitor_file allReadyWorld 7 3 (initLSt recA) = .more s') ∧
    (∃ s', mainFn ["m5stat-monitor", "/tmp/stats.txt", "7"] okOS allReadyWorld 4
        = .loops s') :=
  C7_loop_never_exits_on_success allReadyWorld 7 "m5stat-monitor" "/tmp/stats.txt" "7" 3 4
    (initLSt recA) (fun _ => rfl)
    (fun k e h => by simp [allReadyWorld] at h)
    (fun _ => rfl)

/-- C8: a blocking wait that reports failure — with any errno, including
EINTR — terminates the loop at once with that errno, and a read(2) call
that reports failure right after a successful wait does the same: neither
is retried (the loop exits within that very iteration, whatever fuel
remains), and the errno becomes the loop's result. -/
theorem C8_interrupted_calls_are_fatal (w : World) (w2 : World) (pid : Int)
    (fuel : Nat) (s s2 : LSt) (e : Nat)
    (h1 : w.polls s.polls = .fail e)
    (h2 : w2.polls s2.polls = .ready)
    (h3 : w2.chan.plan s2.reads = .fail e) :
    monitor_file w pid (fuel + 1) s
      = .done e ⟨s.polls + 1, s.reads, s.kills, s.rest, s.sigs⟩ ∧
    monitor_file w2 pid (fuel + 1) s2
      = .done e ⟨s2.polls + 1, s2.reads + 1, s2.kills, s2.rest, s2.sigs⟩ :=
  ⟨monitor_file_poll_fail w pid fuel s e h1,
   monitor_file_read_fail w2 pid fuel s2 e h2 h3⟩

theorem C8_interrupted_calls_are_fatal_witness :
    monitor_file (failPollWorld 4) 7 (0 + 1) (initLSt [])
      = .done 4 ⟨0 + 1, 0, 0, [], []⟩ ∧
    monitor_file (failReadWorld 4) 7 (0 + 1) (initLSt [])
      = .done 4 ⟨0 + 1, 0 + 1, 0, [], []⟩ :=
  C8_interrupted_calls_are_fatal (failPollWorld 4) (failReadWorld 4) 7 0
    (initLSt []) (initLSt []) 4 rfl rfl rfl

/-- C9: with exactly two positional arguments (three argv strings),
argument parsing always succeeds, whatever the pid text contains; a wholly
non-numeric pid string is converted to the numeric fallback 0 instead of
raising a parse error; and the core then runs with atoi of the pid text as
the target ProcessId — visible in the signal trace of a run over a
one-record channel, whose single SIGUSR1 entry targets exactly that pid. -/
theorem C9_lenient_pid_parsing (a b c : String) (s : String)
    (hnd : ∀ ch ∈ s.data, ch.isDigit = false) :
    parse_argv [a, b, c] = .ok (b, atoi c) ∧
    atoi s = 0 ∧
    mainFn [a, b, c] okOS (seqWorld [recA]) 2
      = .loops ⟨1, 1, 1, [], [(atoi c, SIGUSR1, recA)]⟩ := by
  refine ⟨parse_argv_three a b c, atoi_no_digits s hnd, ?_⟩
  have h : monitor_file (seqWorld [recA]) (atoi c) 2 (initLSt (seqWorld [recA]).chan.data)
      = .more ⟨1, 1, 1, [], [(atoi c, SIGUSR1, recA)]⟩ :=
    monitor_file_seqWorld [recA] (atoi c) 0 (by decide)
  rw [mainFn_monitor a b c okOS (seqWorld [recA]) 2 (create_file_monitor_okOS b), h]

theorem C9_lenient_pid_parsing_witness :
    parse_argv ["m5stat-monitor", "/tmp/stats.txt", "notanumber"]
      = .ok ("/tmp/stats.txt", atoi "notanumber") ∧
    atoi "xyz" = 0 ∧
    mainFn ["m5stat-monitor", "/tmp/stats.txt", "notanumber"] okOS (seqWorld [recA]) 2
      = .loops ⟨1, 1, 1, [], [(atoi "notanumber", SIGUSR1, recA)]⟩ :=
  C9_lenient_pid_parsing "m5stat-monitor" "/tmp/stats.txt" "notanumber" "xyz" (by decide)

/-- C10: starting from an empty buffer, however much fuel the reader is run
with, the accumulated byte count stays between 0 and `inotifyEventSize`
inclusive, every recorded read(2) request asks for exactly the remaining
`inotifyEventSize` minus the bytes accumulated so far from an offset
strictly inside the record (so every delivered byte lands inside the
output record buffer), bytes only move from the front of the channel into
the buffer, and on success exactly the first `inotifyEventSize` channel
bytes — never more — have been consumed. -/
theorem C10_reader_buffer_safety (c : Chan) (fuel k0 : Nat) (rest : List Nat) :
    ((read_inotify_event c fuel ⟨k0, [], rest, []⟩).state.acc.length ≤ inotifyEventSize ∧
     (read_inotify_event c fuel ⟨k0, [], rest, []⟩).state.acc
       ++ (read_inotify_event c fuel ⟨k0, [], rest, []⟩).state.rest = rest ∧
     reqsWF (read_inotify_event c fuel ⟨k0, [], rest, []⟩).state.reqs) ∧
    (match read_inotify_event c fuel ⟨k0, [], rest, []⟩ with
     | .done (.ok rec) s' =>
        rec.length = inotifyEventSize ∧ rec = rest.take inotifyEventSize ∧
        s'.rest = rest.drop inotifyEventSize
     | _ => True) := by
  obtain ⟨hb, hc2, hw, _⟩ := read_inotify_event_inv c fuel ⟨k0, [], rest, []⟩
    (by simp) (fun p hp => absurd hp (List.not_mem_nil p))
  refine ⟨⟨hb, by simpa using hc2, hw⟩, ?_⟩
  cases hres : read_inotify_event c fuel ⟨k0, [], rest, []⟩ with
  | more s' => trivial
  | done r s' =>
    cases r with
    | error e => trivial
    | ok rec =>
      obtain ⟨hrec, hlen⟩ := read_inotify_event_ok c fuel _ rec s' hres
      have hcons : s'.acc ++ s'.rest = rest := by
        rw [hres] at hc2
        simpa [StepRes.state] using hc2
      refine ⟨by rw [hrec]; exact hlen, ?_, ?_⟩
      · rw [hrec, ← hcons, ← hlen, List.take_left]
      · rw [← hcons, ← hlen, List.drop_left]

